import Mathlib

/-!
Verification of the repohub mod manager core (src/main.py) against its
natural-language specification.  The Python source is shallowly embedded:
strings stay strings, Python numbers become `ℚ`/`ℕ`, the fuzzy-matching
primitives of the external `fuzz` library are function parameters, and the
filesystem / state-store effects of the install, toggle and uninstall
workflows become explicit state passing over a small record type.  All string
operations are implemented on character lists by structural recursion so that
every definition evaluates inside the kernel.
-/

/-- Python `sub in s` substring containment on strings. -/
def strContains (s sub : String) : Bool :=
  s.toList.tails.any (fun t => sub.toList.isPrefixOf t)

/-- Python `str.lower()` (ASCII-range lowering, which covers every string the
claims touch). -/
def pyLower (s : String) : String := String.mk (s.toList.map Char.toLower)

/-- Python `s.startswith(pre)`. -/
def pyStartsWith (s pre : String) : Bool := pre.toList.isPrefixOf s.toList

/-- Splitting a character list at every character satisfying `p`, keeping
empty pieces - the behaviour of Python `str.split(sep)` for a one-character
separator when `p` tests for that separator. -/
def splitWhen (p : Char → Bool) : List Char → List (List Char)
  | [] => [[]]
  | a :: as =>
    if p a then [] :: splitWhen p as
    else
      match splitWhen p as with
      | [] => [[a]]
      | g :: gs => (a :: g) :: gs

/-- Python `s.split("-")` (single-character separator, empty pieces kept). -/
def pySplitOn (sep : Char) (s : String) : List String :=
  (splitWhen (fun c => c = sep) s.toList).map String.mk

/-- Python `str.split()` with no separator: split on whitespace runs,
dropping empty pieces. -/
def pyWords (s : String) : List String :=
  ((splitWhen Char.isWhitespace s.toList).map String.mk).filter (fun w => w ≠ "")

/-- Python `"-".join(parts)`. -/
def joinHyphen : List String → String
  | [] => ""
  | [a] => a
  | a :: b :: as => a ++ "-" ++ joinHyphen (b :: as)

/-- Python `max` over a list of rationals, with 0 returned for the empty
list.  Python's `max` raises `ValueError` on an empty sequence; every theorem
below that touches this function carries the hypothesis that the query word
list is nonempty, which makes this total variant agree with the source. -/
def max0 (l : List ℚ) : ℚ := l.foldl max 0

/-- Python string comparison `a < b`: lexicographic on code points. -/
def charListLt : List Char → List Char → Bool
  | [], [] => false
  | [], _ :: _ => true
  | _ :: _, [] => false
  | a :: as, b :: bs => if a < b then true else if a = b then charListLt as bs else false

/-- Python `a < b` on strings. -/
def pyStrLt (a b : String) : Bool := charListLt a.toList b.toList

/-- Dependency-reference parsing, transcribed from the body of
`ModDetailsContent.install_dependencies` (src/main.py lines 831-838):
`dep_parts = dep.split("-")`, at least two parts required, first part the
author, last part the version when three or more parts are present, and the
mod name is everything in between re-joined with hyphens.  Returns
`none` for the malformed-reference error (fewer than 2 tokens). -/
def parseDep (dep : String) : Option (String × String × Option String) :=
  let ps := pySplitOn '-' dep
  if 2 ≤ ps.length then
    some (ps.headD "",
      (if 3 ≤ ps.length then joinHyphen ((ps.drop 1).dropLast) else ps.getD 1 ""),
      (if 3 ≤ ps.length then some (ps.getLastD "") else none))
  else none

/-- C9: dependency-reference parsing takes the first hyphen-delimited token
as the author, the last token as the version when three or more tokens are
present, and the mod name as everything between joined by hyphens; the
example "bepinex-repo_bepinexpack-5.4.21" parses to author bepinex, name
repo_bepinexpack, version 5.4.21; and a reference with fewer than two tokens
is a malformed-reference error. -/
theorem C9_dep_reference_parsing :
    parseDep "bepinex-repo_bepinexpack-5.4.21" =
      some ("bepinex", "repo_bepinexpack", some "5.4.21")
    ∧ (∀ s : String, 3 ≤ (pySplitOn '-' s).length →
        parseDep s = some ((pySplitOn '-' s).headD "",
          joinHyphen (((pySplitOn '-' s).drop 1).dropLast),
          some ((pySplitOn '-' s).getLastD "")))
    ∧ (∀ s : String, (pySplitOn '-' s).length < 2 → parseDep s = none) := by
  refine ⟨by decide, ?_, ?_⟩
  · intro s h3
    simp only [parseDep]
    rw [if_pos (by omega), if_pos h3, if_pos h3]
  · intro s h2
    simp only [parseDep]
    rw [if_neg (by omega)]

/-- Witness for C9: each quantified conjunct applied at a concrete input. -/
theorem C9_witness :
    parseDep "plainref" = none
    ∧ parseDep "a-b-c-d" = some ((pySplitOn '-' "a-b-c-d").headD "",
        joinHyphen (((pySplitOn '-' "a-b-c-d").drop 1).dropLast),
        some ((pySplitOn '-' "a-b-c-d").getLastD "")) :=
  ⟨C9_dep_reference_parsing.2.2 "plainref" (by decide),
   C9_dep_reference_parsing.2.1 "a-b-c-d" (by decide)⟩

/-- One cached catalog entry as the Search Ranker sees it (the fields of the
dicts built by ExploreTab.load_all_mods that perform_search reads:
perform_search uses the pre-computed `name_lower` / `description_lower`,
which load_all_mods sets to the lower-casings of `name` / `description`). -/
structure Pkg where
  name : String
  description : String
  deriving DecidableEq, Repr

/-- Python `name_exact_score` (src/main.py line 1652): 100 if any query word
is a substring of the lower-cased name, else 0.  `hasName` is the
pre-computed `has_name_match` of line 1643. -/
def name_exact_score (qws : List String) (nameL : String) : ℚ :=
  if qws.any (strContains nameL) then 100 else 0

/-- Python `name_fuzzy_score` (lines 1655-1658): computed only when
`name_exact_score == 0`, otherwise left at its initialisation 0. -/
def name_fuzzy_score (pr : String → String → ℚ) (qws : List String) (nameL : String) : ℚ :=
  if name_exact_score qws nameL = 0 then max0 (qws.map (fun w => pr w nameL)) else 0

/-- Python `name_token_score` (lines 1656-1660): computed only when
`name_exact_score == 0` and `name_fuzzy_score > 50`, otherwise 0. -/
def name_token_score (pr tsr : String → String → ℚ) (ql : String) (qws : List String)
    (nameL : String) : ℚ :=
  if name_exact_score qws nameL = 0 ∧ name_fuzzy_score pr qws nameL > 50
  then tsr ql nameL else 0

/-- Python `desc_exact_score` (line 1662). -/
def desc_exact_score (qws : List String) (descL : String) : ℚ :=
  if qws.any (strContains descL) then 100 else 0

/-- Python `desc_fuzzy_score` (lines 1665-1668): computed only when
`desc_exact_score == 0` and the description is non-empty (truthy). -/
def desc_fuzzy_score (pr : String → String → ℚ) (qws : List String) (descL : String) : ℚ :=
  if desc_exact_score qws descL = 0 ∧ descL ≠ ""
  then max0 (qws.map (fun w => pr w descL)) else 0

/-- Python `desc_token_score` (lines 1666-1670). -/
def desc_token_score (pr tsr : String → String → ℚ) (ql : String) (qws : List String)
    (descL : String) : ℚ :=
  if desc_exact_score qws descL = 0 ∧ descL ≠ "" ∧ desc_fuzzy_score pr qws descL > 50
  then tsr ql descL else 0

/-- Python `desc_word_score` (lines 1672-1673): fraction of query words that
occur in the (truthy) description, times 100. -/
def desc_word_score (qws : List String) (descL : String) : ℚ :=
  let mcount : ℕ := if descL ≠ "" then qws.countP (strContains descL) else 0
  if 0 < qws.length then ((mcount : ℚ) / (qws.length : ℚ)) * 100 else 0

/-- Python `total_score` (lines 1675-1690): the weighted sum of the six
component scores followed by the 1.5 prefix boost and the 1.3
full-description-coverage boost. -/
def total_score (pr tsr : String → String → ℚ) (ql : String) (qws : List String)
    (nameL descL : String) : ℚ :=
  let base : ℚ :=
    name_exact_score qws nameL * (35/100)
    + name_fuzzy_score pr qws nameL * (15/100)
    + name_token_score pr tsr ql qws nameL * (1/10)
    + desc_exact_score qws descL * (1/5)
    + desc_fuzzy_score pr qws descL * (1/10)
    + desc_token_score pr tsr ql qws descL * (1/20)
    + desc_word_score qws descL * (1/20)
  let b1 : ℚ := if pyStartsWith nameL ql then base * (3/2) else base
  if 0 < qws.length ∧ qws.all (strContains descL) then b1 * (13/10) else b1

/-- Per-candidate scoring of ExploreTab.perform_search (src/main.py lines
1637-1690), parameterized by the external fuzzy primitives
`fuzz.partial_ratio` (`pr`) and `fuzz.token_sort_ratio` (`tsr`).  Returns
`none` when the candidate is skipped by the early exit of lines 1642-1649
(no exact word match in name or description and a quick name fuzzy check
below 30), otherwise the final score. -/
def scoreMod (pr tsr : String → String → ℚ) (ql : String) (qws : List String)
    (nameL descL : String) : Option ℚ :=
  if ¬(qws.any (strContains nameL)) ∧ ¬(qws.any (strContains descL)) ∧ pr ql nameL < 30
  then none
  else some (total_score pr tsr ql qws nameL descL)

/-- Spec §4.2 step 3, nameExact: "100 if any query word is a literal
substring of the lower-cased name, else 0". -/
def specNameExact (qws : List String) (nameL : String) : ℚ :=
  if qws.any (strContains nameL) then 100 else 0

/-- Spec §4.2 step 3, nameFuzzy: "max over query words of a partial-ratio
fuzzy string similarity between the word and the name". -/
def specNameFuzzy (pr : String → String → ℚ) (qws : List String) (nameL : String) : ℚ :=
  max0 (qws.map (fun w => pr w nameL))

/-- Spec §4.2 step 3, nameToken: "a token-order-insensitive fuzzy similarity
between the full query and the name". -/
def specNameToken (tsr : String → String → ℚ) (ql nameL : String) : ℚ := tsr ql nameL

/-- Spec §4.2 step 3, descExact. -/
def specDescExact (qws : List String) (descL : String) : ℚ :=
  if qws.any (strContains descL) then 100 else 0

/-- Spec §4.2 step 3, descFuzzy: "max partial-ratio fuzzy similarity of any
query word against the description". -/
def specDescFuzzy (pr : String → String → ℚ) (qws : List String) (descL : String) : ℚ :=
  max0 (qws.map (fun w => pr w descL))

/-- Spec §4.2 step 3, descToken. -/
def specDescToken (tsr : String → String → ℚ) (ql descL : String) : ℚ := tsr ql descL

/-- Spec §4.2 step 3, descWordScore: "(count of query words individually
present in the description ÷ number of query words) × 100". -/
def specDescWord (qws : List String) (descL : String) : ℚ :=
  ((qws.countP (strContains descL) : ℚ) / (qws.length : ℚ)) * 100

/-- Spec §4.2 steps 4-6: the unoptimized computation that always evaluates
all six component scores, applies the weighted sum
0.35/0.15/0.10/0.20/0.10/0.05/0.05, the 1.5 prefix boost and the 1.3
full-coverage boost. -/
def specScore (pr tsr : String → String → ℚ) (ql : String) (qws : List String)
    (nameL descL : String) : ℚ :=
  let base : ℚ :=
    specNameExact qws nameL * (35/100)
    + specNameFuzzy pr qws nameL * (15/100)
    + specNameToken tsr ql nameL * (1/10)
    + specDescExact qws descL * (1/5)
    + specDescFuzzy pr qws descL * (1/10)
    + specDescToken tsr ql descL * (1/20)
    + specDescWord qws descL * (1/20)
  let b1 : ℚ := if pyStartsWith nameL ql then base * (3/2) else base
  if qws.all (strContains descL) then b1 * (13/10) else b1

/-- The nameFuzzy component as the source's short-circuit leaves it: zero
whenever an exact name match saturates nameExact to 100. -/
def adjNameFuzzy (pr : String → String → ℚ) (qws : List String) (nameL : String) : ℚ :=
  if specNameExact qws nameL = 100 then 0 else specNameFuzzy pr qws nameL

/-- The nameToken component as the source leaves it: zero when an exact name
match exists or the (adjusted) fuzzy score is at most 50. -/
def adjNameToken (pr tsr : String → String → ℚ) (ql : String) (qws : List String)
    (nameL : String) : ℚ :=
  if specNameExact qws nameL = 100 ∨ adjNameFuzzy pr qws nameL ≤ 50 then 0
  else specNameToken tsr ql nameL

/-- The descFuzzy component as the source leaves it: zero when an exact
description match exists or the description is empty. -/
def adjDescFuzzy (pr : String → String → ℚ) (qws : List String) (descL : String) : ℚ :=
  if specDescExact qws descL = 100 ∨ descL = "" then 0 else specDescFuzzy pr qws descL

/-- The descToken component as the source leaves it. -/
def adjDescToken (pr tsr : String → String → ℚ) (ql : String) (qws : List String)
    (descL : String) : ℚ :=
  if specDescExact qws descL = 100 ∨ descL = "" ∨ adjDescFuzzy pr qws descL ≤ 50 then 0
  else specDescToken tsr ql descL

/-- The descWordScore component as the source leaves it: zero for an empty
description (numerically equal to the spec's value there, since no word is a
member of an empty description except the empty word). -/
def adjDescWord (qws : List String) (descL : String) : ℚ :=
  if descL = "" then 0 else specDescWord qws descL

/-- Spec §4.2 weighted sum with the components replaced the way the source's
short-circuits actually leave them (the adjusted components above), with the
same 1.5 prefix boost and 1.3 full-coverage boost. -/
def specScoreAdjusted (pr tsr : String → String → ℚ) (ql : String) (qws : List String)
    (nameL descL : String) : ℚ :=
  let base : ℚ :=
    specNameExact qws nameL * (35/100)
    + adjNameFuzzy pr qws nameL * (15/100)
    + adjNameToken pr tsr ql qws nameL * (1/10)
    + specDescExact qws descL * (1/5)
    + adjDescFuzzy pr qws descL * (1/10)
    + adjDescToken pr tsr ql qws descL * (1/20)
    + adjDescWord qws descL * (1/20)
  let b1 : ℚ := if pyStartsWith nameL ql then base * (3/2) else base
  if qws.all (strContains descL) then b1 * (13/10) else b1

/-- A concrete stand-in for fuzz.partial_ratio, used only to evaluate
counterexamples: 100 when either non-empty argument is a substring of the
other (the real partial_ratio also returns 100 there), 0 otherwise and when
either argument is empty (as the real one does). -/
def prModel (a b : String) : ℚ :=
  if a = "" ∨ b = "" then 0
  else if strContains b a || strContains a b then 100 else 0

/-- A concrete stand-in for fuzz.token_sort_ratio, used only to evaluate
counterexamples: 100 on equal non-empty strings (as the real one), 0
otherwise. -/
def tsrModel (a b : String) : ℚ :=
  if a ≠ "" ∧ a = b then 100 else 0

/-- C1 counterexample: for the catalog entry with name "loot" and empty
description and the query "loot" (one query word, an exact name substring
match, so the candidate is kept by both computations), the source's
short-circuited score is 52.5 while the unoptimized §4.2 computation gives
90: partial_ratio("loot","loot") = 100 and token_sort_ratio("loot","loot")
= 100 are skipped by the source but contribute 15 + 10 to the spec's base
score before the 1.5 prefix boost.  Both scores pass the >35 threshold, so
the candidate is not discarded, yet the scores differ. -/
theorem C1_counterexample :
    scoreMod prModel tsrModel "loot" ["loot"] "loot" "" = some (105/2)
    ∧ specScore prModel tsrModel "loot" ["loot"] "loot" "" = 90
    ∧ ((105 : ℚ)/2 > 35 ∧ (90 : ℚ) > 35)
    ∧ (105 : ℚ)/2 ≠ 90 := by
  refine ⟨?_, ?_, by constructor <;> norm_num, by norm_num⟩
  · simp only [scoreMod, total_score, name_exact_score, name_fuzzy_score, name_token_score,
      desc_exact_score, desc_fuzzy_score, desc_token_score, desc_word_score, max0,
      prModel, tsrModel, pyStartsWith]
    norm_num [strContains]
  · simp only [specScore, specNameExact, specNameFuzzy, specNameToken, specDescExact,
      specDescFuzzy, specDescToken, specDescWord, max0, prModel, tsrModel, pyStartsWith]
    norm_num [strContains]
    rw [if_neg (by decide), if_neg (by decide),
      show ((0 : ℚ) ⊔ 100) = 100 from max_eq_right (by norm_num)]
    norm_num

/-- The exact-match name component of the source coincides with the spec's. -/
theorem name_exact_eq_spec (qws : List String) (nameL : String) :
    name_exact_score qws nameL = specNameExact qws nameL := rfl

/-- The exact-match description component of the source coincides with the
spec's. -/
theorem desc_exact_eq_spec (qws : List String) (descL : String) :
    desc_exact_score qws descL = specDescExact qws descL := rfl

/-- The source's short-circuited nameFuzzy equals the adjusted component. -/
theorem name_fuzzy_eq_adj (pr : String → String → ℚ) (qws : List String) (nameL : String) :
    name_fuzzy_score pr qws nameL = adjNameFuzzy pr qws nameL := by
  unfold name_fuzzy_score adjNameFuzzy name_exact_score specNameExact specNameFuzzy
  split <;> norm_num


/-- The source's short-circuited nameToken equals the adjusted component. -/
theorem name_token_eq_adj (pr tsr : String → String → ℚ) (ql : String) (qws : List String)
    (nameL : String) :
    name_token_score pr tsr ql qws nameL = adjNameToken pr tsr ql qws nameL := by
  unfold name_token_score adjNameToken
  by_cases hx : qws.any (strContains nameL)
  · have h1 : name_exact_score qws nameL = 100 := by unfold name_exact_score; rw [if_pos hx]
    have h2 : specNameExact qws nameL = 100 := h1
    rw [h1, h2, if_neg (fun hc => absurd hc.1 (by norm_num)), if_pos (Or.inl rfl)]
  · have h1 : name_exact_score qws nameL = 0 := by unfold name_exact_score; rw [if_neg hx]
    have h2 : specNameExact qws nameL = 0 := h1
    rw [h1, h2, name_fuzzy_eq_adj]
    by_cases h3 : adjNameFuzzy pr qws nameL ≤ 50
    · rw [if_neg (fun hc => absurd hc.2 (not_lt.mpr h3)), if_pos (Or.inr h3)]
    · rw [if_pos ⟨rfl, lt_of_not_le h3⟩,
        if_neg (by push_neg; exact ⟨by norm_num, lt_of_not_le h3⟩)]
      rfl

/-- The source's short-circuited descFuzzy equals the adjusted component. -/
theorem desc_fuzzy_eq_adj (pr : String → String → ℚ) (qws : List String) (descL : String) :
    desc_fuzzy_score pr qws descL = adjDescFuzzy pr qws descL := by
  unfold desc_fuzzy_score adjDescFuzzy
  by_cases hx : qws.any (strContains descL)
  · have h1 : desc_exact_score qws descL = 100 := by unfold desc_exact_score; rw [if_pos hx]
    have h2 : specDescExact qws descL = 100 := h1
    rw [h1, h2, if_neg (fun hc => absurd hc.1 (by norm_num)), if_pos (Or.inl rfl)]
  · have h1 : desc_exact_score qws descL = 0 := by unfold desc_exact_score; rw [if_neg hx]
    have h2 : specDescExact qws descL = 0 := h1
    rw [h1, h2]
    by_cases hd : descL = ""
    · rw [if_neg (fun hc => absurd hd hc.2), if_pos (Or.inr hd)]
    · rw [if_pos ⟨rfl, hd⟩, if_neg (by push_neg; exact ⟨by norm_num, hd⟩)]
      rfl

/-- The source's short-circuited descToken equals the adjusted component. -/
theorem desc_token_eq_adj (pr tsr : String → String → ℚ) (ql : String) (qws : List String)
    (descL : String) :
    desc_token_score pr tsr ql qws descL = adjDescToken pr tsr ql qws descL := by
  unfold desc_token_score adjDescToken
  by_cases hx : qws.any (strContains descL)
  · have h1 : desc_exact_score qws descL = 100 := by unfold desc_exact_score; rw [if_pos hx]
    have h2 : specDescExact qws descL = 100 := h1
    rw [h1, h2, if_neg (fun hc => absurd hc.1 (by norm_num)), if_pos (Or.inl rfl)]
  · have h1 : desc_exact_score qws descL = 0 := by unfold desc_exact_score; rw [if_neg hx]
    have h2 : specDescExact qws descL = 0 := h1
    rw [h1, h2, desc_fuzzy_eq_adj]
    by_cases hd : descL = ""
    · rw [if_neg (fun hc => absurd hd hc.2.1), if_pos (Or.inr (Or.inl hd))]
    · by_cases h3 : adjDescFuzzy pr qws descL ≤ 50
      · rw [if_neg (fun hc => absurd hc.2.2 (not_lt.mpr h3)), if_pos (Or.inr (Or.inr h3))]
      · rw [if_pos ⟨rfl, hd, lt_of_not_le h3⟩,
          if_neg (by push_neg; exact ⟨by norm_num, hd, lt_of_not_le h3⟩)]
        rfl

/-- The source's desc_word_score equals the adjusted word-coverage component
whenever the query has at least one word. -/
theorem desc_word_eq_adj (qws : List String) (descL : String) (h : qws ≠ []) :
    desc_word_score qws descL = adjDescWord qws descL := by
  have hlen : 0 < qws.length := List.length_pos.mpr h
  unfold desc_word_score adjDescWord specDescWord
  by_cases hd : descL = ""
  · rw [if_pos hd, if_pos hlen, if_neg (fun hc => hc hd)]
    norm_num
  · rw [if_neg hd, if_pos hlen, if_pos hd]

/-- The source's full per-candidate score equals the adjusted spec score
whenever the query has at least one word. -/
theorem total_score_eq_adjusted (pr tsr : String → String → ℚ) (ql : String)
    (qws : List String) (h : qws ≠ []) (nameL descL : String) :
    total_score pr tsr ql qws nameL descL = specScoreAdjusted pr tsr ql qws nameL descL := by
  have hlen : 0 < qws.length := List.length_pos.mpr h
  unfold total_score specScoreAdjusted
  rw [name_exact_eq_spec, desc_exact_eq_spec, name_fuzzy_eq_adj, name_token_eq_adj,
    desc_fuzzy_eq_adj, desc_token_eq_adj, desc_word_eq_adj qws descL h]
  exact if_congr (and_iff_right hlen) rfl rfl

/-- C1 (amended): for every query with at least one word and every candidate,
the short-circuited score of perform_search is NOT the unoptimized §4.2
computation; instead it equals the §4.2 weighted sum with the fuzzy and token
components replaced as the short-circuits leave them (zero when the exact
check saturates, token additionally zero when the fuzzy score is at most 50,
description components additionally zero for an empty description), and the
early check discards a candidate exactly when it has no exact word match in
name or description and partial_ratio(query, name) < 30. -/
theorem C1_score_characterization (pr tsr : String → String → ℚ) (ql : String)
    (qws : List String) (h : qws ≠ []) (nameL descL : String) :
    scoreMod pr tsr ql qws nameL descL =
      if ¬(qws.any (strContains nameL)) ∧ ¬(qws.any (strContains descL)) ∧ pr ql nameL < 30
      then none
      else some (specScoreAdjusted pr tsr ql qws nameL descL) := by
  unfold scoreMod
  rw [total_score_eq_adjusted pr tsr ql qws h nameL descL]

/-- Witness for C1: the characterization applied to the query "loot" (one
query word) and the candidate with name "loot" and empty description. -/
theorem C1_witness :
    scoreMod prModel tsrModel "loot" ["loot"] "loot" "" =
      if ¬((["loot"] : List String).any (strContains "loot"))
          ∧ ¬((["loot"] : List String).any (strContains ""))
          ∧ prModel "loot" "loot" < 30
      then none
      else some (specScoreAdjusted prModel tsrModel "loot" ["loot"] "loot" "") :=
  C1_score_characterization prModel tsrModel "loot" ["loot"] (by decide) "loot" ""

/-- Functional write `l[i] = v` (Python list assignment; the heapq code only
writes in-bounds indices, where this matches). -/
def setNth {α : Type} : List α → ℕ → α → List α
  | [], _, _ => []
  | _ :: as, 0, v => v :: as
  | b :: as, n+1, v => b :: setNth as n v

/-- Read `l[i]` with a default (the heapq code only reads in-bounds
indices, where this matches Python indexing). -/
def nthD {α : Type} : List α → ℕ → α → α
  | [], _, d => d
  | a :: _, 0, _ => a
  | _ :: as, n+1, d => nthD as n d

theorem length_setNth {α : Type} (l : List α) (n : ℕ) (v : α) :
    (setNth l n v).length = l.length := by
  induction l generalizing n with
  | nil => rfl
  | cons b as ih => cases n with
    | zero => rfl
    | succ m => simpa [setNth] using ih m

theorem mem_setNth {α : Type} (l : List α) (n : ℕ) (v : α) :
    ∀ x ∈ setNth l n v, x ∈ l ∨ x = v := by
  induction l generalizing n with
  | nil => intro x hx; cases hx
  | cons b as ih =>
    cases n with
    | zero =>
      intro x hx
      rcases List.mem_cons.mp hx with rfl | hx'
      · right; rfl
      · left; exact List.mem_cons_of_mem _ hx'
    | succ m =>
      intro x hx
      rcases List.mem_cons.mp hx with rfl | hx'
      · left; exact List.mem_cons_self _ _
      · rcases ih m x hx' with h1 | h1
        · left; exact List.mem_cons_of_mem _ h1
        · right; exact h1

theorem nthD_mem_or {α : Type} (l : List α) (n : ℕ) (d : α) :
    nthD l n d ∈ l ∨ nthD l n d = d := by
  induction l generalizing n with
  | nil => right; rfl
  | cons b as ih =>
    cases n with
    | zero => left; exact List.mem_cons_self _ _
    | succ m =>
      rcases ih m with h1 | h1
      · left; exact List.mem_cons_of_mem _ h1
      · right; exact h1

/-- The heap items of perform_search (src/main.py line 1696):
(negated score, package name, package).  Python compares these tuples
lexicographically; the source adds the name precisely as a tiebreaker so that
the third component (a dict, which Python cannot order) is never compared, so
the comparison below reads only the first two fields. -/
abbrev HItem := ℚ × String × Pkg

/-- Python `<` on heap items (lexicographic on negated score, then name). -/
def hlt (a b : HItem) : Bool :=
  decide (a.1 < b.1) || (decide (a.1 = b.1) && pyStrLt a.2.1 b.2.1)

/-- CPython heapq._siftdown(heap, 0, pos) with `item` the value being placed:
walk from `pos` toward the root, moving each parent down while `item`
compares smaller, and finally store `item` at the stopping position. -/
def siftdown (heap : List HItem) (pos : ℕ) (item : HItem) : List HItem :=
  if 0 < pos then
    if hlt item (nthD heap ((pos - 1) / 2) item)
    then siftdown (setNth heap pos (nthD heap ((pos - 1) / 2) item)) ((pos - 1) / 2) item
    else setNth heap pos item
  else setNth heap pos item
termination_by pos
decreasing_by
  have := Nat.div_le_self (pos - 1) 2
  omega

/-- The child position CPython heapq._siftup steps to: the right child when
it exists and the left child does not compare smaller, else the left child. -/
def stepChild (heap : List HItem) (pos : ℕ) (item : HItem) : ℕ :=
  if 2 * pos + 2 < heap.length ∧
      hlt (nthD heap (2 * pos + 1) item) (nthD heap (2 * pos + 2) item) = false
  then 2 * pos + 2 else 2 * pos + 1

/-- CPython heapq._siftup(heap, 0) with `item` the value replacing the root:
walk down the smaller-child path shifting children up, then bubble `item`
back toward the root with _siftdown. -/
def siftup (heap : List HItem) (pos : ℕ) (item : HItem) : List HItem :=
  if _h : 2 * pos + 1 < heap.length then
    siftup (setNth heap pos (nthD heap (stepChild heap pos item) item))
      (stepChild heap pos item) item
  else siftdown heap pos item
termination_by heap.length - pos
decreasing_by
  rw [length_setNth]
  unfold stepChild
  split
  · rename_i hc
    have := hc.1
    omega
  · omega

/-- CPython heapq.heappush: append, then sift toward the root from the new
last slot. -/
def heappush (heap : List HItem) (item : HItem) : List HItem :=
  siftdown (heap ++ [item]) heap.length item

/-- CPython heapq.heapreplace: overwrite the root with the new item and sift
it up (the displaced root is returned by CPython but unused by the
source). -/
def heapreplace (heap : List HItem) (item : HItem) : List HItem :=
  siftup (setNth heap 0 item) 0 item

theorem length_siftdown (heap : List HItem) (pos : ℕ) (item : HItem) :
    (siftdown heap pos item).length = heap.length := by
  induction heap, pos, item using siftdown.induct with
  | case1 heap pos item h1 h2 ih => rw [siftdown, if_pos h1, if_pos h2, ih, length_setNth]
  | case2 heap pos item h1 h2 => rw [siftdown, if_pos h1, if_neg h2, length_setNth]
  | case3 heap pos item h1 => rw [siftdown, if_neg h1, length_setNth]

theorem length_siftup (heap : List HItem) (pos : ℕ) (item : HItem) :
    (siftup heap pos item).length = heap.length := by
  induction heap, pos, item using siftup.induct with
  | case1 heap pos item h1 ih => rw [siftup, dif_pos h1, ih, length_setNth]
  | case2 heap pos item h1 => rw [siftup, dif_neg h1, length_siftdown]

theorem mem_siftdown (heap : List HItem) (pos : ℕ) (item : HItem) :
    ∀ x ∈ siftdown heap pos item, x ∈ heap ∨ x = item := by
  induction heap, pos, item using siftdown.induct with
  | case1 heap pos item h1 h2 ih =>
    intro x hx
    rw [siftdown, if_pos h1, if_pos h2] at hx
    rcases ih x hx with h3 | h3
    · rcases mem_setNth _ _ _ x h3 with h4 | h4
      · left; exact h4
      · rcases nthD_mem_or heap ((pos - 1) / 2) item with h5 | h5
        · left; exact h4 ▸ h5
        · right; exact h4.trans h5
    · right; exact h3
  | case2 heap pos item h1 h2 =>
    intro x hx
    rw [siftdown, if_pos h1, if_neg h2] at hx
    exact mem_setNth _ _ _ x hx
  | case3 heap pos item h1 =>
    intro x hx
    rw [siftdown, if_neg h1] at hx
    exact mem_setNth _ _ _ x hx

theorem mem_siftup (heap : List HItem) (pos : ℕ) (item : HItem) :
    ∀ x ∈ siftup heap pos item, x ∈ heap ∨ x = item := by
  induction heap, pos, item using siftup.induct with
  | case1 heap pos item h1 ih =>
    intro x hx
    rw [siftup, dif_pos h1] at hx
    rcases ih x hx with h3 | h3
    · rcases mem_setNth _ _ _ x h3 with h4 | h4
      · left; exact h4
      · rcases nthD_mem_or heap (stepChild heap pos item) item with h5 | h5
        · left; exact h4 ▸ h5
        · right; exact h4.trans h5
    · right; exact h3
  | case2 heap pos item h1 =>
    intro x hx
    rw [siftup, dif_neg h1] at hx
    exact mem_siftdown _ _ _ x hx

theorem length_heappush (heap : List HItem) (item : HItem) :
    (heappush heap item).length = heap.length + 1 := by
  rw [heappush, length_siftdown, List.length_append, List.length_singleton]

theorem length_heapreplace (heap : List HItem) (item : HItem) :
    (heapreplace heap item).length = heap.length := by
  rw [heapreplace, length_siftup, length_setNth]

theorem mem_heappush (heap : List HItem) (item : HItem) :
    ∀ x ∈ heappush heap item, x ∈ heap ∨ x = item := by
  intro x hx
  rcases mem_siftdown _ _ _ x hx with h1 | h1
  · rcases List.mem_append.mp h1 with h2 | h2
    · left; exact h2
    · right; exact List.mem_singleton.mp h2
  · right; exact h1

theorem mem_heapreplace (heap : List HItem) (item : HItem) :
    ∀ x ∈ heapreplace heap item, x ∈ heap ∨ x = item := by
  intro x hx
  rcases mem_siftup _ _ _ x hx with h1 | h1
  · exact mem_setNth _ _ _ x h1
  · right; exact h1

/-- Heap item used only as the (never relevant) fallback for the in-bounds
read `matches_heap[0]`. -/
def dummyItem : HItem := (0, "", ⟨"", ""⟩)

/-- One iteration of the candidate loop of perform_search (src/main.py lines
1637-1700): score the candidate; when the score clears the >35 threshold,
push it onto the bounded min-heap of size 20, or replace the heap's root when
the heap is full and the new score beats the current minimum. -/
def searchStep (pr tsr : String → String → ℚ) (ql : String) (qws : List String)
    (heap : List HItem) (m : Pkg) : List HItem :=
  match scoreMod pr tsr ql qws (pyLower m.name) (pyLower m.description) with
  | none => heap
  | some s =>
    if s > 35 then
      if heap.length < 20 then heappush heap (-s, m.name, m)
      else if -(nthD heap 0 dummyItem).1 < s then heapreplace heap (-s, m.name, m)
      else heap
    else heap

/-- Stable insertion into a score-descending list: the new element goes after
every already-placed element whose score is at least as large. -/
def insD (x : ℚ × Pkg) : List (ℚ × Pkg) → List (ℚ × Pkg)
  | [] => [x]
  | y :: ys => if x.1 ≤ y.1 then y :: insD x ys else x :: y :: ys

/-- Python `matches.sort(key=lambda x: x[0], reverse=True)` (src/main.py line
1704): stable sort by score descending - elements are placed in original
order, each after earlier elements with an equal or larger score. -/
def sortD (l : List (ℚ × Pkg)) : List (ℚ × Pkg) :=
  l.foldl (fun acc x => insD x acc) []

/-- ExploreTab.perform_search (src/main.py lines 1612-1704) as a function of
the fuzzy primitives, the cached catalog and the query: the final
(score, package) list in display order.  Queries shorter than 3 characters
produce nothing (line 1614). -/
def performSearch (pr tsr : String → String → ℚ) (mods : List Pkg) (query : String) :
    List (ℚ × Pkg) :=
  if query.length < 3 then []
  else
    sortD ((mods.foldl (searchStep pr tsr (pyLower query) (pyWords (pyLower query))) []).map
      (fun it => (-it.1, it.2.2)))

theorem searchStep_bound (pr tsr : String → String → ℚ) (ql : String) (qws : List String)
    (heap : List HItem) (m : Pkg)
    (h : heap.length ≤ 20 ∧ ∀ it ∈ heap, 35 < -it.1) :
    (searchStep pr tsr ql qws heap m).length ≤ 20
    ∧ ∀ it ∈ searchStep pr tsr ql qws heap m, 35 < -it.1 := by
  rw [searchStep]
  rcases scoreMod pr tsr ql qws (pyLower m.name) (pyLower m.description) with _ | s
  · exact h
  · simp only []
    by_cases h35 : s > 35
    · rw [if_pos h35]
      by_cases hlen : heap.length < 20
      · rw [if_pos hlen]
        refine ⟨by rw [length_heappush]; omega, ?_⟩
        intro it hit
        rcases mem_heappush heap _ it hit with h1 | h1
        · exact h.2 it h1
        · rw [h1]; simpa using h35
      · rw [if_neg hlen]
        by_cases hroot : -(nthD heap 0 dummyItem).1 < s
        · rw [if_pos hroot]
          refine ⟨by rw [length_heapreplace]; exact h.1, ?_⟩
          intro it hit
          rcases mem_heapreplace heap _ it hit with h1 | h1
          · exact h.2 it h1
          · rw [h1]; simpa using h35
        · rw [if_neg hroot]; exact h
    · rw [if_neg h35]; exact h

theorem foldl_searchStep_bound (pr tsr : String → String → ℚ) (ql : String)
    (qws : List String) (mods : List Pkg) (heap : List HItem)
    (h : heap.length ≤ 20 ∧ ∀ it ∈ heap, 35 < -it.1) :
    (mods.foldl (searchStep pr tsr ql qws) heap).length ≤ 20
    ∧ ∀ it ∈ mods.foldl (searchStep pr tsr ql qws) heap, 35 < -it.1 := by
  induction mods generalizing heap with
  | nil => exact h
  | cons m ms ih => exact ih _ (searchStep_bound pr tsr ql qws heap m h)

theorem mem_insD (x : ℚ × Pkg) (l : List (ℚ × Pkg)) :
    ∀ z ∈ insD x l, z = x ∨ z ∈ l := by
  induction l with
  | nil => intro z hz; left; exact List.mem_singleton.mp hz
  | cons y ys ih =>
    intro z hz
    rw [insD] at hz
    split at hz
    · rcases List.mem_cons.mp hz with rfl | hz'
      · right; exact List.mem_cons_self _ _
      · rcases ih z hz' with h1 | h1
        · left; exact h1
        · right; exact List.mem_cons_of_mem _ h1
    · rcases List.mem_cons.mp hz with rfl | hz'
      · left; rfl
      · right; exact hz'

theorem length_insD (x : ℚ × Pkg) (l : List (ℚ × Pkg)) :
    (insD x l).length = l.length + 1 := by
  induction l with
  | nil => rfl
  | cons y ys ih =>
    rw [insD]
    split
    · simpa using ih
    · rfl

theorem sorted_insD (x : ℚ × Pkg) (l : List (ℚ × Pkg))
    (h : List.Pairwise (fun a b => b.1 ≤ a.1) l) :
    List.Pairwise (fun a b => b.1 ≤ a.1) (insD x l) := by
  induction l with
  | nil => simp [insD]
  | cons y ys ih =>
    rw [insD]
    rcases List.pairwise_cons.mp h with ⟨hy, hys⟩
    split
    · rename_i hxy
      refine List.pairwise_cons.mpr ⟨?_, ih hys⟩
      intro z hz
      rcases mem_insD x ys z hz with rfl | hz'
      · exact hxy
      · exact hy z hz'
    · rename_i hxy
      push_neg at hxy
      refine List.pairwise_cons.mpr ⟨?_, h⟩
      intro z hz
      rcases List.mem_cons.mp hz with rfl | hz'
      · exact le_of_lt hxy
      · exact le_trans (hy z hz') (le_of_lt hxy)

theorem sortD_facts (l : List (ℚ × Pkg)) :
    List.Pairwise (fun a b => b.1 ≤ a.1) (sortD l)
    ∧ (sortD l).length = l.length
    ∧ ∀ z ∈ sortD l, z ∈ l := by
  suffices h : ∀ acc : List (ℚ × Pkg), List.Pairwise (fun a b => b.1 ≤ a.1) acc →
      List.Pairwise (fun a b => b.1 ≤ a.1) (l.foldl (fun acc x => insD x acc) acc)
      ∧ (l.foldl (fun acc x => insD x acc) acc).length = acc.length + l.length
      ∧ ∀ z ∈ l.foldl (fun acc x => insD x acc) acc, z ∈ acc ∨ z ∈ l by
    rcases h [] List.Pairwise.nil with ⟨h1, h2, h3⟩
    refine ⟨h1, by simpa using h2, ?_⟩
    intro z hz
    rcases h3 z hz with h4 | h4
    · cases h4
    · exact h4
  induction l with
  | nil => intro acc hacc; exact ⟨hacc, rfl, fun z hz => Or.inl hz⟩
  | cons y ys ih =>
    intro acc hacc
    rcases ih (insD y acc) (sorted_insD y acc hacc) with ⟨h1, h2, h3⟩
    refine ⟨h1, ?_, ?_⟩
    · simp only [List.foldl_cons]
      rw [h2, length_insD, List.length_cons]
      omega
    · intro z hz
      rcases h3 z hz with h4 | h4
      · rcases mem_insD y acc z h4 with rfl | h5
        · right; exact List.mem_cons_self _ _
        · left; exact h5
      · right; exact List.mem_cons_of_mem _ h4

/-- C4 (amended): for all catalogs, queries and fuzzy primitives, the search
output is sorted by non-increasing score, contains at most 20 entries and
every returned entry has score strictly greater than 35.  (The name-ascending
tie order asserted by the claim is refuted separately: equal-score ties keep
the heap's internal order, which the final score-only stable sort
preserves.) -/
theorem C4_search_output (pr tsr : String → String → ℚ) (mods : List Pkg) (query : String) :
    List.Pairwise (fun a b => b.1 ≤ a.1) (performSearch pr tsr mods query)
    ∧ (performSearch pr tsr mods query).length ≤ 20
    ∧ ∀ p ∈ performSearch pr tsr mods query, 35 < p.1 := by
  rw [performSearch]
  split
  · exact ⟨List.Pairwise.nil, by simp, by simp⟩
  · rcases foldl_searchStep_bound pr tsr (pyLower query) (pyWords (pyLower query)) mods []
      ⟨by simp, by simp⟩ with ⟨hlen, hval⟩
    rcases sortD_facts (((mods.foldl (searchStep pr tsr (pyLower query)
      (pyWords (pyLower query))) []).map (fun it => (-it.1, it.2.2)))) with ⟨h1, h2, h3⟩
    refine ⟨h1, ?_, ?_⟩
    · rw [h2, List.length_map]; exact hlen
    · intro p hp
      rcases List.mem_map.mp (h3 p hp) with ⟨it, hit, rfl⟩
      exact hval it hit

theorem hlt_same_score (s : ℚ) (n1 n2 : String) (p1 p2 : Pkg) :
    hlt (s, n1, p1) (s, n2, p2) = pyStrLt n1 n2 := by
  rw [hlt]
  rw [decide_eq_false (lt_irrefl s), decide_eq_true rfl]
  simp

theorem score_zzzc_eval : scoreMod prModel tsrModel "zzz" ["zzz"] (pyLower "zzzc") (pyLower "") =
    some (105/2) := by
  rw [show pyLower "zzzc" = "zzzc" from by decide, show pyLower "" = "" from by decide]
  simp only [scoreMod, total_score, name_exact_score, name_fuzzy_score, name_token_score,
    desc_exact_score, desc_fuzzy_score, desc_token_score, desc_word_score, max0,
    prModel, tsrModel, pyStartsWith]
  norm_num [strContains]

theorem score_zzza_eval : scoreMod prModel tsrModel "zzz" ["zzz"] (pyLower "zzza") (pyLower "") =
    some (105/2) := by
  rw [show pyLower "zzza" = "zzza" from by decide, show pyLower "" = "" from by decide]
  simp only [scoreMod, total_score, name_exact_score, name_fuzzy_score, name_token_score,
    desc_exact_score, desc_fuzzy_score, desc_token_score, desc_word_score, max0,
    prModel, tsrModel, pyStartsWith]
  norm_num [strContains]

theorem score_zzzb_eval : scoreMod prModel tsrModel "zzz" ["zzz"] (pyLower "zzzb") (pyLower "") =
    some (105/2) := by
  rw [show pyLower "zzzb" = "zzzb" from by decide, show pyLower "" = "" from by decide]
  simp only [scoreMod, total_score, name_exact_score, name_fuzzy_score, name_token_score,
    desc_exact_score, desc_fuzzy_score, desc_token_score, desc_word_score, max0,
    prModel, tsrModel, pyStartsWith]
  norm_num [strContains]

theorem step_zzzc_eval : searchStep prModel tsrModel "zzz" ["zzz"] [] ⟨"zzzc",""⟩ =
    [(-(105/2 : ℚ), "zzzc", ⟨"zzzc",""⟩)] := by
  rw [searchStep]
  dsimp only
  rw [score_zzzc_eval]
  dsimp only
  rw [if_pos (by norm_num : (105/2 : ℚ) > 35), if_pos (by decide)]
  rw [heappush]
  rw [show (([] : List HItem) ++ [(-(105/2 : ℚ), "zzzc", ⟨"zzzc",""⟩)]) =
    [(-(105/2 : ℚ), "zzzc", ⟨"zzzc",""⟩)] from rfl]
  rw [siftdown, if_neg (by decide : ¬ (0 : ℕ) < List.length ([] : List HItem))]
  rfl

theorem step_zzza_eval : searchStep prModel tsrModel "zzz" ["zzz"]
    [(-(105/2 : ℚ), "zzzc", ⟨"zzzc",""⟩)] ⟨"zzza",""⟩ =
    [(-(105/2 : ℚ), "zzza", ⟨"zzza",""⟩), (-(105/2 : ℚ), "zzzc", ⟨"zzzc",""⟩)] := by
  rw [searchStep]
  dsimp only
  rw [score_zzza_eval]
  dsimp only
  rw [if_pos (by norm_num : (105/2 : ℚ) > 35), if_pos (by decide)]
  rw [heappush]
  rw [show ([(-(105/2 : ℚ), "zzzc", ⟨"zzzc",""⟩)] ++
      [(-(105/2 : ℚ), "zzza", ⟨"zzza",""⟩)] : List HItem) =
    [(-(105/2 : ℚ), "zzzc", ⟨"zzzc",""⟩), (-(105/2 : ℚ), "zzza", ⟨"zzza",""⟩)] from rfl]
  rw [show List.length [(-(105/2 : ℚ), "zzzc", (⟨"zzzc",""⟩ : Pkg))] = 1 from rfl]
  rw [siftdown, if_pos (by decide : (0 : ℕ) < 1)]
  rw [show nthD [(-(105/2 : ℚ), "zzzc", (⟨"zzzc",""⟩ : Pkg)), (-(105/2 : ℚ), "zzza", (⟨"zzza",""⟩ : Pkg))]
      ((1 - 1) / 2) (-(105/2 : ℚ), "zzza", (⟨"zzza",""⟩ : Pkg)) =
      (-(105/2 : ℚ), "zzzc", (⟨"zzzc",""⟩ : Pkg)) from rfl]
  rw [hlt_same_score]
  rw [show pyStrLt "zzza" "zzzc" = true from by decide]
  rw [if_pos rfl]
  rw [siftdown, if_neg (by decide : ¬ (0 : ℕ) < (1 - 1) / 2)]
  rfl

theorem step_zzzb_eval : searchStep prModel tsrModel "zzz" ["zzz"]
    [(-(105/2 : ℚ), "zzza", ⟨"zzza",""⟩), (-(105/2 : ℚ), "zzzc", ⟨"zzzc",""⟩)] ⟨"zzzb",""⟩ =
    [(-(105/2 : ℚ), "zzza", ⟨"zzza",""⟩), (-(105/2 : ℚ), "zzzc", ⟨"zzzc",""⟩),
     (-(105/2 : ℚ), "zzzb", ⟨"zzzb",""⟩)] := by
  rw [searchStep]
  dsimp only
  rw [score_zzzb_eval]
  dsimp only
  rw [if_pos (by norm_num : (105/2 : ℚ) > 35), if_pos (by decide)]
  rw [heappush]
  rw [show ([(-(105/2 : ℚ), "zzza", ⟨"zzza",""⟩), (-(105/2 : ℚ), "zzzc", ⟨"zzzc",""⟩)] ++
      [(-(105/2 : ℚ), "zzzb", ⟨"zzzb",""⟩)] : List HItem) =
    [(-(105/2 : ℚ), "zzza", ⟨"zzza",""⟩), (-(105/2 : ℚ), "zzzc", ⟨"zzzc",""⟩),
     (-(105/2 : ℚ), "zzzb", ⟨"zzzb",""⟩)] from rfl]
  rw [show List.length [(-(105/2 : ℚ), "zzza", (⟨"zzza",""⟩ : Pkg)),
      (-(105/2 : ℚ), "zzzc", (⟨"zzzc",""⟩ : Pkg))] = 2 from rfl]
  rw [siftdown, if_pos (by decide : (0 : ℕ) < 2)]
  rw [show nthD [(-(105/2 : ℚ), "zzza", (⟨"zzza",""⟩ : Pkg)), (-(105/2 : ℚ), "zzzc", (⟨"zzzc",""⟩ : Pkg)),
      (-(105/2 : ℚ), "zzzb", (⟨"zzzb",""⟩ : Pkg))] ((2 - 1) / 2) (-(105/2 : ℚ), "zzzb", (⟨"zzzb",""⟩ : Pkg)) =
      (-(105/2 : ℚ), "zzza", (⟨"zzza",""⟩ : Pkg)) from rfl]
  rw [hlt_same_score]
  rw [show pyStrLt "zzzb" "zzza" = false from by decide]
  rw [if_neg (by decide : ¬ false = true)]
  rfl

/-- C4 counterexample: on the three-package catalog zzzc, zzza, zzzb (in
that fetch order), all with empty descriptions, the query "zzz" scores every
package 52.5, yet the output order is zzza, zzzc, zzzb: the entries with
equal score are NOT ordered by package name ascending ("zzzb" < "zzzc" but
zzzc is listed first) - the final sort of perform_search is keyed on the
score alone and Python's stable sort keeps the heap's internal order for
ties. -/
theorem C4_counterexample :
    performSearch prModel tsrModel [⟨"zzzc",""⟩, ⟨"zzza",""⟩, ⟨"zzzb",""⟩] "zzz" =
      [((105 : ℚ)/2, ⟨"zzza",""⟩), ((105 : ℚ)/2, ⟨"zzzc",""⟩), ((105 : ℚ)/2, ⟨"zzzb",""⟩)]
    ∧ pyStrLt "zzzb" "zzzc" = true := by
  constructor
  · rw [performSearch, if_neg (by decide : ¬ ("zzz".length < 3))]
    rw [show pyLower "zzz" = "zzz" from by decide]
    rw [show pyWords "zzz" = ["zzz"] from by decide]
    rw [List.foldl_cons, step_zzzc_eval, List.foldl_cons, step_zzza_eval, List.foldl_cons, step_zzzb_eval, List.foldl_nil]
    dsimp only [List.map]
    simp only [neg_neg]
    rw [sortD]
    rw [List.foldl_cons, List.foldl_cons, List.foldl_cons, List.foldl_nil]
    rw [show insD ((105 : ℚ)/2, (⟨"zzza",""⟩ : Pkg)) [] = [((105 : ℚ)/2, ⟨"zzza",""⟩)] from rfl]
    rw [insD]
    dsimp only
    rw [if_pos (le_refl ((105 : ℚ)/2))]
    rw [show insD ((105 : ℚ)/2, (⟨"zzzc",""⟩ : Pkg)) [] = [((105 : ℚ)/2, ⟨"zzzc",""⟩)] from rfl]
    rw [insD]
    dsimp only
    rw [if_pos (le_refl ((105 : ℚ)/2))]
    rw [insD]
    dsimp only
    rw [if_pos (le_refl ((105 : ℚ)/2))]
    rw [show insD ((105 : ℚ)/2, (⟨"zzzb",""⟩ : Pkg)) [] = [((105 : ℚ)/2, ⟨"zzzb",""⟩)] from rfl]
  · decide

/-- Overwrite-or-append a single (relative path, contents) file into a file
set, as extracting one archive member does. -/
def setFile (fs : List (String × String)) (f : String × String) : List (String × String) :=
  if fs.any (fun g => g.1 = f.1) then fs.map (fun g => if g.1 = f.1 then f else g)
  else fs ++ [f]

/-- `zipfile.ZipFile.extractall` into a directory already holding `fs`:
members overwrite same-named files and are added otherwise. -/
def extractInto (fs files : List (String × String)) : List (String × String) :=
  files.foldl setFile fs

/-- The on-disk and state-store footprint of one package, as the install,
toggle and uninstall workflows of ModDetailsContent touch it:
`dir` - the package's plugin subdirectory BepInEx/plugins/<name> (its files
by relative path, `none` when the directory is absent);
`zip` - the disabled archive BepInEx/plugins/disabled_mods/<name>.zip;
`temp` - whether the scratch download file exists;
`record` - whether the state store (ConfigManager installed_mods) holds the
package. -/
structure PkgDisk where
  dir : Option (List (String × String))
  zip : Option (List (String × String))
  temp : Bool
  record : Bool
  deriving DecidableEq, Repr

/-- The archive the server serves: either not a valid ZIP (truncated or
corrupt - `zipfile.ZipFile` raises BadZipFile on opening it) or a valid
member list. -/
inductive Archive
  | corrupt
  | valid (files : List (String × String))
  deriving DecidableEq, Repr

/-- The download response seen by install_mod: a network error (raised by
requests), or a body with/without a Content-Length header, nonempty or
empty, containing `archive`. -/
inductive DlResp
  | netErr
  | ok (hasLen : Bool) (nonEmptyBody : Bool) (archive : Archive)
  deriving DecidableEq, Repr

/-- Which of install_mod's handlers runs: success, the RequestException
handler (download failure), the BadZipFile handler (corrupt archive), or the
generic handler via the ZeroDivisionError raised by the progress update when
the Content-Length header is absent. -/
inductive InstallOutcome
  | success
  | downloadFailed
  | archiveCorrupt
  | progressDivByZero
  deriving DecidableEq, Repr

/-- ModDetailsContent.install_mod (src/main.py lines 882-999) for one package
with a known download URL, tracking that package's plugin subdirectory,
disabled archive, scratch file and state-store record.  `isDep` is line 913
(name contains "bepinex" or "repolib"): such installs extract into the plugin
root, not the per-package subdirectory, and skip the state store.  Order of
effects, as in the source: os.makedirs(target_dir) BEFORE the download (line
923); the scratch file is written then removed in a `finally`; a nonempty
body without Content-Length raises ZeroDivisionError at the first progress
update (total_size defaults to 0, line 930/941); an empty downloaded file or
corrupt archive raises BadZipFile at extraction; on success only, and only
for non-dependencies, add_installed_mod runs.  Every error is caught inside
install_mod itself (dialog + return), so the function never raises. -/
def install_mod (isDep : Bool) (resp : DlResp) (st : PkgDisk) : InstallOutcome × PkgDisk :=
  let st1 : PkgDisk := if isDep then st else { st with dir := some (st.dir.getD []) }
  match resp with
  | .netErr => (.downloadFailed, st1)
  | .ok hasLen body archive =>
    if !body then (.archiveCorrupt, { st1 with temp := false })
    else if !hasLen then (.progressDivByZero, { st1 with temp := false })
    else
      match archive with
      | .corrupt => (.archiveCorrupt, { st1 with temp := false })
      | .valid files =>
        if isDep then (.success, { st1 with temp := false })
        else (.success,
          { st1 with
            dir := some (extractInto (st1.dir.getD []) files)
            temp := false
            record := true })

/-- C3 (amended): installing a package whose downloaded archive is truncated
(empty body) or corrupt takes the BadZipFile branch (the ArchiveCorruptError
classification), removes the scratch file, extracts nothing into the target
subdirectory and leaves the state store and the disabled archive untouched -
but the target plugin subdirectory itself EXISTS afterwards (empty on a fresh
install), because os.makedirs(target_dir) runs before the download. -/
theorem C3_corrupt_archive (st : PkgDisk) (body : Bool) :
    (install_mod false (.ok true body .corrupt) st).1 = .archiveCorrupt
    ∧ (install_mod false (.ok true body .corrupt) st).2.temp = false
    ∧ (install_mod false (.ok true body .corrupt) st).2.record = st.record
    ∧ (install_mod false (.ok true body .corrupt) st).2.dir = some (st.dir.getD [])
    ∧ (install_mod false (.ok true body .corrupt) st).2.zip = st.zip := by
  cases body <;> simp [install_mod]

/-- C3 counterexample: a fresh install (nothing on disk, no record) of a
package whose archive is corrupt returns the corrupt-archive error, yet the
target plugin subdirectory is PRESENT (created empty by os.makedirs before
the download) - the claim asserts it is absent afterwards. -/
theorem C3_counterexample :
    (install_mod false (.ok true true .corrupt) ⟨none, none, false, false⟩).1
      = InstallOutcome.archiveCorrupt
    ∧ (install_mod false (.ok true true .corrupt) ⟨none, none, false, false⟩).2.dir
      = some []
    ∧ (install_mod false (.ok true true .corrupt) ⟨none, none, false, false⟩).2.dir
      ≠ none := by
  refine ⟨by decide, by decide, by decide⟩

/-- C6: in the source, a download response that reports no Content-Length
does NOT complete the install: total_size defaults to 0 (line 930) and the
first progress update divides by it (line 941), so any nonempty body raises
ZeroDivisionError, the generic handler reports a failure, nothing is
extracted and the state store is not updated - contradicting the claim (and
spec §4.5) that the transition still completes when the stream ends. -/
theorem C6_no_content_length_fails (a : Archive) (st : PkgDisk) :
    (install_mod false (.ok false true a) st).1 = .progressDivByZero
    ∧ (install_mod false (.ok false true a) st).1 ≠ .success
    ∧ (install_mod false (.ok false true a) st).2.record = st.record
    ∧ (install_mod false (.ok false true a) st).2.dir = some (st.dir.getD []) := by
  simp [install_mod]

/-- Which branch of toggle_mod ran and whether its try block finished. -/
inductive ToggleOutcome
  | disabledOk
  | enabledOk
  | noop
  | errDisable
  | errEnable
  deriving DecidableEq, Repr

/-- Failure oracle for toggle_mod's filesystem calls: `zipWriteFailAt = some
k` makes the archive-writing loop raise after `k` files (the `with` block
still closes the partial archive, which has truncated the previous one);
`rmtreeOk` - whether shutil.rmtree succeeds; `extractFailAt = some k` makes
extractall raise after extracting `k` members; `removeZipOk` - whether
os.remove of the archive succeeds. -/
structure ToggleOracle where
  zipWriteFailAt : Option ℕ
  rmtreeOk : Bool
  extractFailAt : Option ℕ
  removeZipOk : Bool
  deriving DecidableEq, Repr

/-- ModDetailsContent.toggle_mod (src/main.py lines 1021-1105): if the plugin
directory exists, archive it into disabled_mods/<name>.zip (ZipFile('w')
truncates any previous archive immediately) and only then rmtree the
directory; elif the archive exists, os.makedirs the directory, extract into
it, then os.remove the archive; else do nothing.  Every exception is caught
inside toggle_mod (dialog + return).  The state-store record and the scratch
flag are never touched. -/
def toggle_mod (o : ToggleOracle) (st : PkgDisk) : ToggleOutcome × PkgDisk :=
  match st.dir with
  | some files =>
    match o.zipWriteFailAt with
    | some k => (.errDisable, { st with zip := some (files.take k) })
    | none =>
      if o.rmtreeOk then (.disabledOk, { st with zip := some files, dir := none })
      else (.errDisable, { st with zip := some files })
  | none =>
    match st.zip with
    | some zfiles =>
      match o.extractFailAt with
      | some k => (.errEnable, { st with dir := some (zfiles.take k) })
      | none =>
        if o.removeZipOk then (.enabledOk, { st with dir := some zfiles, zip := none })
        else (.errEnable, { st with dir := some zfiles })
    | none => (.noop, st)

/-- ModDetailsContent.uninstall_mod (src/main.py lines 1107-1133), after the
user confirms: if the disabled archive exists remove it, ELIF the plugin
directory exists remove it (so when both exist only the archive goes), then
delete the state-store record. -/
def uninstall_mod (st : PkgDisk) : PkgDisk :=
  if st.zip.isSome then { st with zip := none, record := false }
  else if st.dir.isSome then { st with dir := none, record := false }
  else { st with record := false }

/-- C8 (amended): toggle_mod never touches the state-store record; in the
Enabled-to-Disabled direction the archive holds the full directory contents
before the directory is removed and a failure never removes the directory;
in the Disabled-to-Enabled direction a failure leaves the archive in place.
(That a failed enable is NOT safe to retry is the separate counterexample:
the retry takes the disable branch over the partially extracted directory
and overwrites the archive.) -/
theorem C8_toggle_guarantees (o : ToggleOracle) (st : PkgDisk) :
    (toggle_mod o st).2.record = st.record
    ∧ (∀ files, st.dir = some files →
        ((toggle_mod o st).2.dir = none → (toggle_mod o st).2.zip = some files)
        ∧ ((toggle_mod o st).1 = ToggleOutcome.errDisable →
            (toggle_mod o st).2.dir = some files))
    ∧ (∀ zfiles, st.dir = none → st.zip = some zfiles →
        (toggle_mod o st).1 = ToggleOutcome.errEnable →
          (toggle_mod o st).2.zip = some zfiles) := by
  rcases st with ⟨dir, zip, temp, record⟩
  rcases dir with _ | files
  · rcases zip with _ | zfiles
    · refine ⟨rfl, ?_, ?_⟩
      · intro files hf; cases hf
      · intro zfiles _ hz; cases hz
    · rcases o with ⟨zw, rm, ef, rz⟩
      rcases ef with _ | k
      · by_cases hrz : rz = true
        · subst hrz
          refine ⟨rfl, ?_, ?_⟩
          · intro files hf; cases hf
          · intro z _ hz hout; cases hout
        · rw [Bool.not_eq_true] at hrz
          subst hrz
          refine ⟨rfl, ?_, ?_⟩
          · intro files hf; cases hf
          · intro z _ hz _
            injection hz with hz'
            subst hz'
            simp [toggle_mod]
      · refine ⟨rfl, ?_, ?_⟩
        · intro files hf; cases hf
        · intro z _ hz _
          injection hz with hz'
          subst hz'
          simp [toggle_mod]
  · rcases o with ⟨zw, rm, ef, rz⟩
    rcases zw with _ | k
    · by_cases hrm : rm = true
      · subst hrm
        refine ⟨rfl, ?_, ?_⟩
        · intro f hf
          injection hf with hf'
          subst hf'
          exact ⟨fun _ => rfl, fun hout => by cases hout⟩
        · intro z hd; cases hd
      · rw [Bool.not_eq_true] at hrm
        subst hrm
        refine ⟨rfl, ?_, ?_⟩
        · intro f hf
          injection hf with hf'
          subst hf'
          refine ⟨fun hd => ?_, fun _ => rfl⟩
          · simp only [toggle_mod] at hd
            cases hd
        · intro z hd; cases hd
    · refine ⟨rfl, ?_, ?_⟩
      · intro f hf
        injection hf with hf'
        subst hf'
        refine ⟨fun hd => ?_, fun _ => rfl⟩
        · simp only [toggle_mod] at hd
          cases hd
      · intro z hd; cases hd

/-- Witness for C8: a disabled package whose enable fails immediately (zero
members extracted) keeps its archive. -/
theorem C8_witness :
    (toggle_mod ⟨none, true, some 0, true⟩
      ⟨none, some [("f","x")], false, true⟩).2.zip = some [("f","x")] :=
  (C8_toggle_guarantees ⟨none, true, some 0, true⟩
    ⟨none, some [("f","x")], false, true⟩).2.2 [("f","x")] rfl rfl (by decide)

/-- C8 counterexample: enabling a disabled two-file package fails after one
member is extracted (archive intact so far), but the RETRY is not safe: the
partially extracted directory makes the second toggle take the disable
branch, which truncates the archive to the single extracted file and removes
the directory - the package ends Disabled with one of its two files lost. -/
theorem C8_counterexample :
    (toggle_mod ⟨none, true, some 1, true⟩
        ⟨none, some [("a","1"), ("b","2")], false, true⟩) =
      (ToggleOutcome.errEnable,
        ⟨some [("a","1")], some [("a","1"), ("b","2")], false, true⟩)
    ∧ (toggle_mod ⟨none, true, none, true⟩
        ⟨some [("a","1")], some [("a","1"), ("b","2")], false, true⟩) =
      (ToggleOutcome.disabledOk, ⟨none, some [("a","1")], false, true⟩)
    ∧ some [("a","1")] ≠ some [("a","1"), ("b","2")] := by
  refine ⟨by decide, by decide, by decide⟩

/-- C10: when both the plugin directory and the disabled archive exist,
uninstall removes only the archive, leaves the plugin directory in place,
and still deletes the state-store record. -/
theorem C10_uninstall_both (st : PkgDisk) (d z : List (String × String))
    (hd : st.dir = some d) (hz : st.zip = some z) :
    (uninstall_mod st).zip = none
    ∧ (uninstall_mod st).dir = some d
    ∧ (uninstall_mod st).record = false := by
  rcases st with ⟨dir, zip, temp, record⟩
  cases hd
  cases hz
  simp [uninstall_mod]

/-- Witness for C10 at a concrete state with both representations present. -/
theorem C10_witness :
    (uninstall_mod ⟨some [("f","x")], some [("g","y")], false, true⟩).zip = none
    ∧ (uninstall_mod ⟨some [("f","x")], some [("g","y")], false, true⟩).dir
      = some [("f","x")]
    ∧ (uninstall_mod ⟨some [("f","x")], some [("g","y")], false, true⟩).record = false :=
  C10_uninstall_both ⟨some [("f","x")], some [("g","y")], false, true⟩
    [("f","x")] [("g","y")] rfl rfl

/-- One workflow call on a single (non-dependency-named) package. -/
inductive ModOp
  | install (resp : DlResp)
  | toggle (o : ToggleOracle)
  | uninstall
  deriving DecidableEq, Repr

/-- Run one workflow call, returning the resulting state exactly when the
call completed without an (internally caught) error: the install succeeded,
the toggle branch finished (the branch where neither representation exists
does nothing and reports nothing), and uninstall always completes here (its
filesystem removals are not given a failure oracle).  All three source
functions catch their own exceptions, so "completed without raising an
error" is precisely "no error dialog was shown". -/
def stepOk : ModOp → PkgDisk → Option PkgDisk
  | .install resp, st =>
    match install_mod false resp st with
    | (.success, st1) => some st1
    | _ => none
  | .toggle o, st =>
    match toggle_mod o st with
    | (.errDisable, _) => none
    | (.errEnable, _) => none
    | (_, st1) => some st1
  | .uninstall, st => some (uninstall_mod st)

/-- Run a sequence of workflow calls, all completing without error. -/
def runOps : List ModOp → PkgDisk → Option PkgDisk
  | [], st => some st
  | op :: rest, st =>
    match stepOk op st with
    | none => none
    | some st1 => runOps rest st1

/-- The claim's three-way disjunction, literally: exactly one of {the plugin
directory exists, the disabled archive exists, neither exists and no
state-store record exists} holds. -/
def exactlyOne (st : PkgDisk) : Prop :=
  (st.dir.isSome = true ∧ ¬ st.zip.isSome = true
      ∧ ¬ (st.dir = none ∧ st.zip = none ∧ st.record = false))
  ∨ (¬ st.dir.isSome = true ∧ st.zip.isSome = true
      ∧ ¬ (st.dir = none ∧ st.zip = none ∧ st.record = false))
  ∨ (¬ st.dir.isSome = true ∧ ¬ st.zip.isSome = true
      ∧ (st.dir = none ∧ st.zip = none ∧ st.record = false))

/-- C5 counterexample: install, toggle (disable), install again - every call
completes without error, but afterwards BOTH the plugin directory and the
disabled archive exist (install never removes a leftover disabled archive),
so the claimed three-way exclusive invariant fails. -/
theorem C5_counterexample :
    runOps [ModOp.install (.ok true true (.valid [("f","x")])),
            ModOp.toggle ⟨none, true, none, true⟩,
            ModOp.install (.ok true true (.valid [("f","x")]))]
        ⟨none, none, false, false⟩
      = some ⟨some [("f","x")], some [("f","x")], false, true⟩
    ∧ ¬ exactlyOne ⟨some [("f","x")], some [("f","x")], false, true⟩ := by
  constructor
  · decide
  · unfold exactlyOne
    decide

/-- Whether the amendment's restriction admits this call in this state:
install is never invoked while the disabled archive exists. -/
def allowed : ModOp → PkgDisk → Bool
  | .install _, st => !st.zip.isSome
  | _, _ => true

/-- Error-free runs in which install is only invoked on states without a
disabled archive. -/
def runRestricted : List ModOp → PkgDisk → Option PkgDisk
  | [], st => some st
  | op :: rest, st =>
    if allowed op st then
      match stepOk op st with
      | none => none
      | some st1 => runRestricted rest st1
    else none

/-- The inductive invariant behind C5: never both representations at once,
and a record only when some representation exists. -/
def invDiskStore (st : PkgDisk) : Prop :=
  ¬ (st.dir.isSome = true ∧ st.zip.isSome = true)
  ∧ (st.dir = none → st.zip = none → st.record = false)

theorem invDiskStore_exactlyOne (st : PkgDisk) (h : invDiskStore st) : exactlyOne st := by
  rcases st with ⟨dir, zip, temp, record⟩
  rcases dir with _ | d
  · rcases zip with _ | z
    · right; right
      exact ⟨by simp, by simp, rfl, rfl, h.2 rfl rfl⟩
    · right; left
      refine ⟨by simp, by simp, ?_⟩
      rintro ⟨_, hz, _⟩
      cases hz
  · rcases zip with _ | z
    · left
      refine ⟨by simp, by simp, ?_⟩
      rintro ⟨hd, _, _⟩
      cases hd
    · exact absurd ⟨by simp, by simp⟩ h.1

theorem stepOk_preserves (op : ModOp) (st st1 : PkgDisk)
    (hallow : allowed op st = true) (hstep : stepOk op st = some st1)
    (h : invDiskStore st) : invDiskStore st1 := by
  rcases st with ⟨dir, zip, temp, record⟩
  rcases op with resp | o | _
  · have hz : zip = none := by
      rcases zip with _ | z
      · rfl
      · simp [allowed] at hallow
    subst hz
    rcases resp with _ | ⟨hasLen, body, archive⟩
    · simp [stepOk, install_mod] at hstep
    · rcases archive with _ | files
      · cases hasLen <;> cases body <;> simp [stepOk, install_mod] at hstep
      · cases hasLen <;> cases body <;> simp [stepOk, install_mod] at hstep
        subst hstep
        exact ⟨by simp, by simp⟩
  · rcases dir with _ | files
    · rcases zip with _ | zfiles
      · simp only [stepOk, toggle_mod] at hstep
        rcases Option.some.injEq .. ▸ hstep with rfl
        exact h
      · rcases o with ⟨zw, rm, ef, rz⟩
        rcases ef with _ | k
        · by_cases hrz : rz = true
          · subst hrz
            simp [stepOk, toggle_mod] at hstep
            subst hstep
            exact ⟨by simp, by simp⟩
          · rw [Bool.not_eq_true] at hrz
            subst hrz
            simp [stepOk, toggle_mod] at hstep
        · simp [stepOk, toggle_mod] at hstep
    · rcases o with ⟨zw, rm, ef, rz⟩
      rcases zw with _ | k
      · by_cases hrm : rm = true
        · subst hrm
          simp [stepOk, toggle_mod] at hstep
          subst hstep
          exact ⟨by simp, by simp⟩
        · rw [Bool.not_eq_true] at hrm
          subst hrm
          simp [stepOk, toggle_mod] at hstep
      · simp [stepOk, toggle_mod] at hstep
  · simp only [stepOk, Option.some.injEq] at hstep
    subst hstep
    rcases zip with _ | z
    · rcases dir with _ | d
      · exact ⟨by simp [uninstall_mod], by simp [uninstall_mod]⟩
      · exact ⟨by simp [uninstall_mod], by simp [uninstall_mod]⟩
    · rcases dir with _ | d
      · exact ⟨by simp [uninstall_mod], by simp [uninstall_mod]⟩
      · exact absurd ⟨by simp, by simp⟩ h.1

theorem runRestricted_inv (ops : List ModOp) (st0 st : PkgDisk)
    (h0 : invDiskStore st0) (h : runRestricted ops st0 = some st) : invDiskStore st := by
  induction ops generalizing st0 with
  | nil =>
    simp only [runRestricted, Option.some.injEq] at h
    subst h
    exact h0
  | cons op rest ih =>
    rw [runRestricted] at h
    split at h
    · rename_i hallow
      rcases hstep : stepOk op st0 with _ | st1
      · rw [hstep] at h
        cases h
      · rw [hstep] at h
        exact ih st1 (stepOk_preserves op st0 st1 hallow hstep h0) h
    · cases h

/-- C5 (amended): starting from NotInstalled, after any error-free sequence
of install/toggle/uninstall calls on one package in which install is never
invoked while the disabled archive exists, exactly one of {plugin directory
exists, disabled archive exists, neither exists and no record exists}
holds.  (Installing while Disabled, which leaves both representations, is
the separate counterexample.) -/
theorem C5_state_invariant (ops : List ModOp) (st : PkgDisk)
    (h : runRestricted ops ⟨none, none, false, false⟩ = some st) :
    exactlyOne st :=
  invDiskStore_exactlyOne st
    (runRestricted_inv ops ⟨none, none, false, false⟩ st ⟨by simp, by simp⟩ h)

/-- Witness for C5: one successful install from NotInstalled ends Enabled. -/
theorem C5_witness :
    exactlyOne ⟨some [("f","x")], none, false, true⟩ :=
  C5_state_invariant [ModOp.install (.ok true true (.valid [("f","x")]))]
    ⟨some [("f","x")], none, false, true⟩ (by decide)

/-- One published version as install_dependencies reads it from the API
(the fields used at src/main.py lines 850-861). -/
structure VersionInfo where
  version_number : String
  download_url : String
  icon : String
  deriving DecidableEq, Repr

/-- One package entry of the raw Thunderstore list (the fields
install_dependencies reads at lines 842-845). -/
structure CatalogEntry where
  owner : String
  name : String
  versions : List VersionInfo
  deriving DecidableEq, Repr

/-- Python `max(versions, key=lambda v: v["version_number"])` (line 852): the
first entry with the lexicographically maximal version_number; `none` for an
empty list, where Python `max` raises - caught at the loop level like the
other resolution failures. -/
def maxByVersion : List VersionInfo → Option VersionInfo
  | [] => none
  | v :: vs => some (vs.foldl (fun best w =>
      if pyStrLt best.version_number w.version_number then w else best) v)

/-- The resolution part of one iteration of
ModDetailsContent.install_dependencies (src/main.py lines 831-871): parse the
reference, find the first catalog entry whose owner and name match, then pick
the requested version - or the maximal one when no version token is present.
`none` is any of the raised resolution errors (invalid dependency format /
mod not found / version not found), each of which aborts the loop. -/
def resolveDep (catalog : List CatalogEntry) (dep : String) : Option VersionInfo :=
  match parseDep dep with
  | none => none
  | some (author, nm, over) =>
    match catalog.find? (fun m => m.owner == author && m.name == nm) with
    | none => none
    | some m =>
      match over with
      | some v => m.versions.find? (fun vi => vi.version_number == v)
      | none => maxByVersion m.versions

/-- Result of the dependency-installation loop: the final
installed-dependency list of the config, the dependencies whose own
install_mod reported a failure dialog (install_mod never raises), and the
dependency at which the loop aborted, if any. -/
structure DepLoopResult where
  installed : List String
  failures : List String
  aborted : Option String
  deriving DecidableEq, Repr

/-- ConfigManager.add_installed_dependency (src/main.py lines 193-198):
append only when absent (idempotent). -/
def addDep (installed : List String) (dep : String) : List String :=
  if dep ∈ installed then installed else installed ++ [dep]

/-- The loop of ModDetailsContent.install_dependencies (src/main.py lines
825-871): skip references already marked installed; abort the remaining loop
on the first reference that fails to resolve; otherwise call install_mod -
which reports its own failures in a dialog and returns normally (the oracle
`dlOk dep` records whether that install actually succeeded) - and then mark
the reference installed REGARDLESS of that outcome (line 863 runs whenever
line 856 returns, and install_mod catches all its exceptions). -/
def installDependencies (catalog : List CatalogEntry) (dlOk : String → Bool) :
    List String → List String → List String → DepLoopResult
  | [], installed, failures => ⟨installed, failures, none⟩
  | dep :: rest, installed, failures =>
    if dep ∈ installed then installDependencies catalog dlOk rest installed failures
    else
      match resolveDep catalog dep with
      | none => ⟨installed, failures, some dep⟩
      | some _ =>
        installDependencies catalog dlOk rest (addDep installed dep)
          (if dlOk dep then failures else failures ++ [dep])

theorem mem_addDep_self (l : List String) (dep : String) : dep ∈ addDep l dep := by
  rw [addDep]
  split
  · assumption
  · exact List.mem_append.mpr (Or.inr (List.mem_singleton.mpr rfl))

theorem mem_addDep_of_mem (l : List String) (dep d : String) (h : d ∈ l) :
    d ∈ addDep l dep := by
  rw [addDep]
  split
  · exact h
  · exact List.mem_append.mpr (Or.inl h)

theorem mem_of_mem_addDep (l : List String) (dep d : String) (h : d ∈ addDep l dep) :
    d ∈ l ∨ d = dep := by
  rw [addDep] at h
  split at h
  · exact Or.inl h
  · rcases List.mem_append.mp h with h1 | h1
    · exact Or.inl h1
    · exact Or.inr (List.mem_singleton.mp h1)

/-- C2 (amended): in the dependency-installation loop, (1) references already
marked installed stay marked (no rollback of prior marks, and dependencies
marked earlier in the same run remain marked); (2) a reference becomes marked
only if it was already marked or it occurs in the list and RESOLVES - but
resolution is all that is required: (3) every dependency whose own install
failed is nonetheless marked installed, because install_mod swallows its
errors; and (4) the loop aborts exactly at a reference that is not already
marked and fails to resolve (malformed, mod not found, or version not
found), leaving the remaining iterations undone. -/
theorem C2_dependency_loop (catalog : List CatalogEntry) (dlOk : String → Bool)
    (deps installed0 failures0 : List String) :
    (∀ d ∈ installed0,
        d ∈ (installDependencies catalog dlOk deps installed0 failures0).installed)
    ∧ (∀ d ∈ (installDependencies catalog dlOk deps installed0 failures0).installed,
        d ∈ installed0 ∨ (d ∈ deps ∧ (resolveDep catalog d).isSome = true))
    ∧ (∀ d ∈ (installDependencies catalog dlOk deps installed0 failures0).failures,
        d ∈ failures0
          ∨ d ∈ (installDependencies catalog dlOk deps installed0 failures0).installed)
    ∧ (∀ f, (installDependencies catalog dlOk deps installed0 failures0).aborted = some f →
        f ∈ deps ∧ resolveDep catalog f = none ∧ f ∉ installed0) := by
  induction deps generalizing installed0 failures0 with
  | nil =>
    refine ⟨fun d hd => hd, fun d hd => Or.inl hd, fun d hd => Or.inl hd, ?_⟩
    intro f hf
    cases hf
  | cons dep rest ih =>
    rw [installDependencies]
    split
    · rename_i hmem
      rcases ih installed0 failures0 with ⟨ih1, ih2, ih3, ih4⟩
      refine ⟨ih1, ?_, ih3, ?_⟩
      · intro d hd
        rcases ih2 d hd with h1 | h1
        · exact Or.inl h1
        · exact Or.inr ⟨List.mem_cons_of_mem _ h1.1, h1.2⟩
      · intro f hf
        rcases ih4 f hf with ⟨h1, h2, h3⟩
        exact ⟨List.mem_cons_of_mem _ h1, h2, h3⟩
    · rename_i hmem
      rcases hres : resolveDep catalog dep with _ | vi
      · refine ⟨fun d hd => hd, fun d hd => Or.inl hd, fun d hd => Or.inl hd, ?_⟩
        intro f hf
        injection hf with hf'
        subst hf'
        exact ⟨List.mem_cons_self _ _, hres, hmem⟩
      · rcases ih (addDep installed0 dep)
          (if dlOk dep then failures0 else failures0 ++ [dep]) with ⟨ih1, ih2, ih3, ih4⟩
        refine ⟨?_, ?_, ?_, ?_⟩
        · intro d hd
          exact ih1 d (mem_addDep_of_mem installed0 dep d hd)
        · intro d hd
          rcases ih2 d hd with h1 | h1
          · rcases mem_of_mem_addDep installed0 dep d h1 with h2 | h2
            · exact Or.inl h2
            · subst h2
              exact Or.inr ⟨List.mem_cons_self _ _, by rw [hres]; rfl⟩
          · exact Or.inr ⟨List.mem_cons_of_mem _ h1.1, h1.2⟩
        · intro d hd
          rcases ih3 d hd with h1 | h1
          · by_cases hok : dlOk dep = true
            · rw [if_pos hok] at h1
              exact Or.inl h1
            · rw [Bool.not_eq_true] at hok
              rw [if_neg (by rw [hok]; exact Bool.false_ne_true)] at h1
              rcases List.mem_append.mp h1 with h2 | h2
              · exact Or.inl h2
              · right
                have h3 : d = dep := List.mem_singleton.mp h2
                subst h3
                exact ih1 d (mem_addDep_self installed0 d)
          · exact Or.inr h1
        · intro f hf
          rcases ih4 f hf with ⟨h1, h2, h3⟩
          refine ⟨List.mem_cons_of_mem _ h1, h2, fun hc => h3 ?_⟩
          exact mem_addDep_of_mem installed0 dep f hc

/-- Witness for C2: a previously marked dependency stays marked through a
run that installs one more dependency. -/
theorem C2_witness :
    "x-y" ∈ (installDependencies [⟨"a", "b", [⟨"1.0", "u", "i"⟩]⟩] (fun _ => true)
      ["a-b"] ["x-y"] []).installed :=
  (C2_dependency_loop [⟨"a", "b", [⟨"1.0", "u", "i"⟩]⟩] (fun _ => true)
    ["a-b"] ["x-y"] []).1 "x-y" (by decide)

/-- C2 counterexample: a single dependency "a-b" that resolves against the
catalog but whose own install fails (dlOk = false, i.e. install_mod showed
an error dialog) is still marked installed in the state store - refuting
"marked as installed only if its install actually succeeded". -/
theorem C2_counterexample :
    installDependencies [⟨"a", "b", [⟨"1.0", "u", "i"⟩]⟩] (fun _ => false)
        ["a-b"] [] []
      = ⟨["a-b"], ["a-b"], none⟩
    ∧ "a-b" ∈ (installDependencies [⟨"a", "b", [⟨"1.0", "u", "i"⟩]⟩] (fun _ => false)
        ["a-b"] [] []).installed
    ∧ "a-b" ∈ (installDependencies [⟨"a", "b", [⟨"1.0", "u", "i"⟩]⟩] (fun _ => false)
        ["a-b"] [] []).failures := by
  refine ⟨by decide, by decide, by decide⟩

/-- One raw version object of the catalog response (the fields
load_all_mods reads at src/main.py lines 1264-1279). -/
structure RawVersion where
  version_number : String
  description : String
  downloads : ℕ
  icon : String
  file_size : ℕ
  dependencies : List String
  download_url : String
  deriving DecidableEq, Repr

/-- One raw package object of the catalog response. -/
structure RawMod where
  name : String
  owner : String
  versions : List RawVersion
  deriving DecidableEq, Repr

/-- One cached summary, the dict built at src/main.py lines 1268-1280 (the
pre-computed lower-case fields are derived from name/description and
omitted). -/
structure ModSummary where
  name : String
  creator : String
  description : String
  version : String
  downloads : ℕ
  icon : String
  file_size : ℕ
  dependencies : List String
  download_url : String
  deriving DecidableEq, Repr

/-- Python `max(mod["versions"], key=lambda v: v["version_number"])` (line
1264): the first entry with the lexicographically maximal version_number;
`none` for an empty list (where Python raises - the claims only concern
responses whose entries carry at least one version). -/
def newestVersion : List RawVersion → Option RawVersion
  | [] => none
  | v :: vs => some (vs.foldl (fun best w =>
      if pyStrLt best.version_number w.version_number then w else best) v)

/-- The cache-building loop of ExploreTab.load_all_mods (src/main.py lines
1253-1280): drop entries whose lower-cased name contains "modpack" or
"bepinex", keep a summary of the newest version of each remaining entry. -/
def processCatalog (data : List RawMod) : List ModSummary :=
  data.filterMap (fun m =>
    if strContains (pyLower m.name) "modpack" || strContains (pyLower m.name) "bepinex"
    then none
    else (newestVersion m.versions).map (fun nv =>
      { name := m.name
        creator := m.owner
        description := nv.description
        version := nv.version_number
        downloads := nv.downloads
        icon := nv.icon
        file_size := nv.file_size
        dependencies := nv.dependencies
        download_url := nv.download_url }))

/-- The catalog response seen by load_all_mods: a network failure raised by
requests, or an HTTP status with a JSON body. -/
inductive CatalogResp
  | netErr
  | http (status : ℕ) (data : List RawMod)
  deriving DecidableEq, Repr

/-- How a load_all_mods call ends for its caller: the cache was rebuilt
(status 200); the function returned silently with nothing raised, shown or
changed (any other status - there is no `else` branch at line 1251); or the
requests exception propagated out (network failure, nothing caught). -/
inductive FetchOutcome
  | ok
  | silentIgnore
  | exnPropagated
  deriving DecidableEq, Repr

/-- ExploreTab.load_all_mods (src/main.py lines 1246-1295) as a function of
the HTTP response and the prior cache. -/
def load_all_mods : CatalogResp → List ModSummary → FetchOutcome × List ModSummary
  | .netErr, cache => (.exnPropagated, cache)
  | .http status data, cache =>
    if status = 200 then (.ok, processCatalog data) else (.silentIgnore, cache)

/-- C7 (amended): a catalog refresh that does not succeed leaves the cached
catalog exactly at its prior contents (no partial overwrite); a network
failure propagates the underlying requests exception to the caller; but a
non-success HTTP status is NOT surfaced as an error - load_all_mods returns
silently, leaving the prior view unchanged, contradicting the claim that a
CatalogFetchError is surfaced and never silently swallowed. -/
theorem C7_catalog_failure (resp : CatalogResp) (cache : List ModSummary) :
    ((load_all_mods resp cache).1 ≠ FetchOutcome.ok → (load_all_mods resp cache).2 = cache)
    ∧ (resp = CatalogResp.netErr →
        load_all_mods resp cache = (FetchOutcome.exnPropagated, cache))
    ∧ (∀ s data, resp = CatalogResp.http s data → s ≠ 200 →
        load_all_mods resp cache = (FetchOutcome.silentIgnore, cache)) := by
  rcases resp with _ | ⟨s, data⟩
  · refine ⟨fun _ => rfl, fun _ => rfl, ?_⟩
    intro s data h
    cases h
  · refine ⟨?_, ?_, ?_⟩
    · intro hne
      rw [load_all_mods] at hne ⊢
      by_cases hs : s = 200
      · rw [if_pos hs] at hne
        exact absurd rfl hne
      · rw [if_neg hs]
    · intro h
      cases h
    · intro s' data' heq hs
      injection heq with h1 h2
      subst h1
      subst h2
      rw [load_all_mods, if_neg hs]

/-- Witness for C7: a 500 response with an empty body leaves an empty cache
untouched and is silently ignored. -/
theorem C7_witness :
    load_all_mods (CatalogResp.http 500 []) ([] : List ModSummary)
      = (FetchOutcome.silentIgnore, []) :=
  (C7_catalog_failure (CatalogResp.http 500 []) []).2.2 500 [] rfl (by decide)

/-- C7 counterexample: a 404 refresh against a one-entry cache ends with the
`silentIgnore` outcome - the cache keeps its prior contents, but no error of
any kind is raised or reported to the caller, refuting "fails with a
CatalogFetchError surfaced to the caller (never silently swallowed)". -/
theorem C7_counterexample :
    load_all_mods (CatalogResp.http 404 [])
        [⟨"m", "c", "d", "1", 0, "i", 0, [], "u"⟩]
      = (FetchOutcome.silentIgnore, [⟨"m", "c", "d", "1", 0, "i", 0, [], "u"⟩])
    ∧ FetchOutcome.silentIgnore ≠ FetchOutcome.ok
    ∧ FetchOutcome.silentIgnore ≠ FetchOutcome.exnPropagated := by
  refine ⟨by decide, by decide, by decide⟩
